import Mathlib

/-!
# Verification of `majel.py` against its specification

A shallow embedding of the Majel script (`src/legacy/majel.py`): the CSV
serialization performed by the roster fetcher, the roster-fetch result
handling, the system-prompt builder, the interactive chat loop, and the
credential loader.  Text is embedded as `List Char`; Python exceptions
become `Except`; the external services (spreadsheet API, chat endpoint,
filesystem) are explicit inputs.
-/

namespace Majel

/-- A text cell of the roster table (Python `str`). -/
abbrev Field := List Char

/-- One spreadsheet row: a sequence of text cells. -/
abbrev Row := List Field

/-- The roster table: a sequence of rows. -/
abbrev Table := List Row

/-! ## CSV serialization (`csv.writer` with the default dialect)

`fetch_roster_context` serializes `values` with `csv.writer(output)` and
`writer.writerows(values)`.  The default dialect uses delimiter `,`,
quote char `"`, line terminator `"\r\n"` and minimal quoting: a field is
quoted iff it contains the delimiter, the quote char, or a line-terminator
character; an embedded quote is doubled; a row consisting of a single
empty field is written as `""` so it is not mistaken for a blank line. -/

/-- Does a field need quoting under minimal quoting? -/
def needsQuote (f : Field) : Bool :=
  f.any (fun c => c = ',' || c = '"' || c = '\r' || c = '\n')

/-- Double every embedded quote char. -/
def escQ (f : Field) : Field :=
  f.flatMap (fun c => if c = '"' then ['"', '"'] else [c])

/-- Serialize one field following minimal quoting. -/
def encodeField (f : Field) : Field :=
  if needsQuote f then '"' :: (escQ f ++ ['"']) else f

/-- The cells of a row joined by the delimiter. -/
def encodeCells : Row → Field
  | [] => []
  | [f] => encodeField f
  | f :: r => encodeField f ++ ',' :: encodeCells r

/-- Serialize one row (without the line terminator).  A row made of a
single empty field becomes `""`, as the Python writer emits it. -/
def encodeRow (r : Row) : Field :=
  match r with
  | [[]] => ['"', '"']
  | _ => encodeCells r

/-- `writer.writerows(values)`: each row serialized and terminated by
`"\r\n"`. -/
def writerows (t : Table) : Field :=
  t.flatMap (fun r => encodeRow r ++ ['\r', '\n'])

/-! ## CSV parsing (`csv.reader` with the default dialect)

The parser that reads the serialized text back: quoted fields may contain
any character with quotes doubled, unquoted fields end at a delimiter or
line terminator, a blank line is an empty row. -/

/-- Parse the body of a quoted field, after the opening quote.  Returns
the field contents and the input after the closing quote. -/
def parseQuoted : Field → Field → Option (Field × Field)
  | _, [] => none
  | acc, c :: rest =>
    if c = '"' then
      match rest with
      | [] => some (acc, [])
      | c2 :: rest2 =>
        if c2 = '"' then parseQuoted (acc ++ ['"']) rest2 else some (acc, rest)
    else parseQuoted (acc ++ [c]) rest

/-- A character that terminates an unquoted field. -/
def isFieldEnd (c : Char) : Bool :=
  c = ',' || c = '\r' || c = '\n'

/-- Parse an unquoted field: everything up to a delimiter or line end. -/
def parseUnquoted : Field → Field × Field
  | [] => ([], [])
  | c :: rest =>
    if isFieldEnd c then ([], c :: rest)
    else
      let p := parseUnquoted rest
      (c :: p.1, p.2)

/-- Parse one field, quoted or not. -/
def parseField (s : Field) : Option (Field × Field) :=
  match s with
  | [] => some ([], [])
  | c :: rest => if c = '"' then parseQuoted [] rest else some (parseUnquoted s)

/-- Parse one record with a recursion budget: fields separated by `,`,
ended by `"\r\n"` or by the end of the input.  Returns the row and the
input after the record.  The budget bounds the number of fields. -/
def parseRowF : Nat → Field → Option (Row × Field)
  | 0, _ => none
  | fuel + 1, s =>
    match parseField s with
    | none => none
    | some (f, rest) =>
      match rest with
      | [] => some ([f], [])
      | c :: rest2 =>
        if c = ',' then
          match parseRowF fuel rest2 with
          | none => none
          | some (r, rest3) => some (f :: r, rest3)
        else if c = '\r' then
          match rest2 with
          | [] => none
          | c2 :: rest3 => if c2 = '\n' then some ([f], rest3) else none
        else none

/-- Parse one record; the input's length bounds the number of fields. -/
def parseRow (s : Field) : Option (Row × Field) :=
  parseRowF (s.length + 1) s

/-- Parse the whole text into records with a recursion budget: a blank
line is an empty row, any other line is parsed by `parseRow`. -/
def parseRowsF : Nat → Field → Option Table
  | 0, _ => none
  | fuel + 1, s =>
    match s with
    | [] => some []
    | c :: rest =>
      if c = '\r' then
        match rest with
        | [] => none
        | c2 :: rest2 =>
          if c2 = '\n' then (parseRowsF fuel rest2).map (fun t => [] :: t)
          else none
      else
        match parseRow s with
        | none => none
        | some (r, rest3) => (parseRowsF fuel rest3).map (fun t => r :: t)

/-- Parse CSV text into a table of rows (`csv.reader` on the full text);
the input's length bounds the number of records. -/
def parseCSV (s : Field) : Option Table :=
  parseRowsF (s.length + 1) s

/-- Input that may legally follow a field: nothing, a delimiter, or the
line terminator. -/
def tailOk (s : Field) : Bool :=
  match s with
  | [] => true
  | c :: _ => c = ',' || c = '\r'

/-! ## The roster fetcher (`fetch_roster_context`) -/

/-- Python text (a `str` value). -/
abbrev Msg := List Char

/-- A Python exception as `main` distinguishes them: `FileNotFoundError`
is handled by its own clause, every other exception by the generic one,
carrying its message. -/
inductive PyError
  | fileNotFound
  | other (msg : Msg)
deriving DecidableEq

/-- The placeholder returned for an empty result set. -/
def noDataMsg : Msg := "No data found in spreadsheet.".toList

/-- The body of `fetch_roster_context` after the API call returned:
`values` is `result.get` of the values key with default `[]`; an empty
`values` maps to the placeholder string, otherwise the rows are
serialized with `csv.writer`. -/
def fetch_roster_context (apiValues : Option Table) : Msg :=
  let values := apiValues.getD []
  if values = [] then noDataMsg else writerows values

/-- `fetch_roster_context` with its fallible steps explicit: acquiring
the service and executing the API call may each raise.  The function
installs no handler, so either failure propagates unchanged to the
caller. -/
def fetch_roster_contextE (service : Except PyError Unit)
    (api : Except PyError (Option Table)) : Except PyError Msg :=
  match service with
  | .error e => .error e
  | .ok _ =>
    match api with
    | .error e => .error e
    | .ok v => .ok (fetch_roster_context v)

/-! ## The credential loader (`get_sheets_service`) -/

/-- The fields of a cached Google credential that the loader inspects. -/
structure PyCreds where
  valid : Bool
  expired : Bool
  hasRefreshToken : Bool
deriving DecidableEq

/-- The credential after a successful silent refresh. -/
def refreshedCreds (c : PyCreds) : PyCreds :=
  { c with valid := true, expired := false }

/-- The credential produced by the interactive consent flow. -/
def flowCreds : PyCreds :=
  ⟨true, false, true⟩

/-- The filesystem as `get_sheets_service` observes it: the cached
credential in `token.json` when that file exists, and whether the
client-secret descriptor `credentials.json` is present. -/
structure FsEnv where
  tokenFile : Option PyCreds
  clientSecretsPresent : Bool
deriving DecidableEq

/-- `get_sheets_service`: load the cached credential when present; if
none is loaded or it is invalid, refresh silently when it is expired
with a refresh token, otherwise run the consent flow, which raises
`FileNotFoundError` when `credentials.json` is missing. -/
def get_sheets_service (env : FsEnv) : Except PyError PyCreds :=
  match env.tokenFile with
  | some c =>
    if c.valid then .ok c
    else if c.expired && c.hasRefreshToken then .ok (refreshedCreds c)
    else if env.clientSecretsPresent then .ok flowCreds
    else .error .fileNotFound
  | none =>
    if env.clientSecretsPresent then .ok flowCreds
    else .error .fileNotFound

/-- A cached credential that lets `get_sheets_service` succeed without
the client-secret descriptor: still valid, or refreshable. -/
def usableCache (env : FsEnv) : Bool :=
  match env.tokenFile with
  | none => false
  | some c => c.valid || (c.expired && c.hasRefreshToken)

/-! ## Top of `main`: the roster-fetch attempt -/

/-- What `main` does with the roster-fetch attempt: proceed towards the
chat loop, or print a diagnostic and return early.  A plain `return`
from Python `main` ends the process with exit code 0. -/
inductive InitResult
  | proceed (rosterCsv : Msg)
  | earlyReturn (diag : List Msg) (exitCode : Nat)
deriving DecidableEq

/-- The diagnostic lines printed when `credentials.json` is missing. -/
def credsDiag : List Msg :=
  ["❌ credentials.json not found.".toList,
   "   Download from: Google Cloud Console -> APIs & Services -> Credentials".toList,
   "   Place in this directory and run again.".toList]

/-- The diagnostic line printed for any other fetch failure. -/
def fetchDiag (e : Msg) : List Msg :=
  ["❌ Failed to fetch roster: ".toList ++ e]

/-- The two `except` clauses around the fetch in `main`. -/
def main_init (fetchRes : Except PyError Msg) : InitResult :=
  match fetchRes with
  | .ok csv => .proceed csv
  | .error .fileNotFound => .earlyReturn credsDiag 0
  | .error (.other e) => .earlyReturn (fetchDiag e) 0

/-! ## The prompt builder (`build_system_prompt`) -/

/-- The template text before the interpolated `roster_csv`. -/
def promptHead : Msg :=
  ("You are Majel, the Fleet Intelligence System for Admiral Guff.\n\nDATA SOURCE:\nYou have access to a specific dataset of Star Trek Fleet Command officers provided below in CSV format.\n\nRULES:\n1. TRUTH: Use ONLY the provided CSV data to answer questions about officers.\n2. UNKNOWN: If the answer is not in the CSV, state \"Data not available in current roster.\" Do not guess based on external Star Trek lore.\n3. CITATION: When providing stats or details, cite the spreadsheet Row Number (if available) or the specific Officer Name to verify the source.\n4. DETERMINISM: Be concise and factual. No fluff.\n\n--- BEGIN ROSTER DATA ---\n").toList

/-- The template text after the interpolated `roster_csv`. -/
def promptTail : Msg :=
  "\n--- END ROSTER DATA ---\n".toList

/-- `build_system_prompt`: fixed template substitution around the CSV. -/
def build_system_prompt (roster_csv : Msg) : Msg :=
  promptHead ++ roster_csv ++ promptTail

/-! ## The chat loop -/

/-- The whitespace characters that Python `str.strip` removes (the ASCII
ones; the inputs of interest here are ASCII). -/
def pySpace (c : Char) : Bool :=
  c = ' ' || c = '\t' || c = '\n' || c = '\r' || c = '\x0b' || c = '\x0c'

/-- Python `str.strip()`: drop leading and trailing whitespace. -/
def pyStrip (s : Msg) : Msg :=
  ((s.dropWhile pySpace).reverse.dropWhile pySpace).reverse

/-- Python `str.lower()` (on ASCII letters). -/
def pyLower (s : Msg) : Msg :=
  s.map Char.toLower

/-- The recognized termination keywords. -/
def exitWords : List Msg :=
  ["exit".toList, "quit".toList, "q".toList]

/-- The farewell line printed when the loop terminates. -/
def farewell : Msg :=
  "Majel offline. Live long and prosper. 🖖".toList

/-- The per-turn error report for a caught send exception. -/
def errorLine (e : Msg) : Msg :=
  "\n⚠️ Error: ".toList ++ e ++ "\n".toList

/-- The printed model reply for a successful send. -/
def replyLine (resp : Msg) : Msg :=
  "\nMajel > ".toList ++ resp ++ "\n".toList

/-- What one call of `chat.send_message` may do: return a reply, raise an
ordinary exception, or be interrupted. -/
inductive SendOutcome
  | ok (resp : Msg)
  | exn (msg : Msg)
  | interrupted
deriving DecidableEq

/-- One iteration of the loop starts by reading a line, or observes an
interrupt while blocked on input. -/
inductive LoopEvent
  | line (s : Msg)
  | interrupt
deriving DecidableEq

/-- The conversation history held by the remote chat session: one
(user message, model reply) pair per completed turn. -/
structure ChatState where
  history : List (Msg × Msg)
deriving DecidableEq

/-- Where the loop stands after one iteration. -/
inductive Phase
  | awaitingInput (st : ChatState)
  | offline
deriving DecidableEq

/-- The observable result of one iteration: the next phase, the lines
printed, and the message sent to the remote endpoint, if any. -/
structure StepResult where
  phase : Phase
  printed : List Msg
  sent : Option Msg
deriving DecidableEq

/-- One iteration of the `while True` body of `main`, with the remote
endpoint abstracted as `send`.  The input line is stripped; an empty
result re-loops; a lowercased termination keyword breaks out after the
farewell; otherwise the line is sent, a reply is printed and recorded, an
ordinary exception is caught and reported, and an interrupt (whether it
arrives at the input prompt or during the send) breaks out after the
farewell. -/
def loopStep (send : Msg → SendOutcome) (st : ChatState) (ev : LoopEvent) :
    StepResult :=
  match ev with
  | .interrupt => ⟨.offline, [farewell], none⟩
  | .line raw =>
    if pyStrip raw = [] then ⟨.awaitingInput st, [], none⟩
    else if pyLower (pyStrip raw) ∈ exitWords then ⟨.offline, [farewell], none⟩
    else
      match send (pyStrip raw) with
      | .ok resp =>
        ⟨.awaitingInput ⟨st.history ++ [(pyStrip raw, resp)]⟩, [replyLine resp],
          some (pyStrip raw)⟩
      | .exn e => ⟨.awaitingInput st, [errorLine e], some (pyStrip raw)⟩
      | .interrupted => ⟨.offline, [farewell], some (pyStrip raw)⟩

/-! ## Length bounds for the field parsers -/

theorem parseQuoted_length_le (acc s : Field) :
    ∀ f rest, parseQuoted acc s = some (f, rest) → rest.length ≤ s.length := by
  induction acc, s using parseQuoted.induct with
  | case1 x => intro f r h; simp [parseQuoted] at h
  | case2 acc => intro f r h; simp [parseQuoted] at h; simp [h.2]
  | case3 acc rest2 ih =>
    intro f r h
    rw [parseQuoted.eq_def] at h
    simp only [reduceIte] at h
    have := ih f r h
    simp only [List.length_cons]
    omega
  | case4 acc c2 rest2 hc2 =>
    intro f r h
    rw [parseQuoted.eq_def] at h
    simp [hc2] at h
    simp [h.2]
  | case5 acc c rest hc ih =>
    intro f r h
    rw [parseQuoted.eq_def] at h
    simp only [if_neg hc] at h
    have := ih f r h
    simp only [List.length_cons]
    omega

theorem parseUnquoted_length_le (s : Field) :
    (parseUnquoted s).2.length ≤ s.length := by
  induction s with
  | nil => simp [parseUnquoted]
  | cons c rest ih =>
    rw [parseUnquoted]
    by_cases hc : isFieldEnd c = true
    · simp [hc]
    · simp only [hc, if_neg]
      simp at hc
      simp [hc]
      omega

theorem parseField_length_le (s : Field) :
    ∀ f rest, parseField s = some (f, rest) → rest.length ≤ s.length := by
  intro f rest h
  match s with
  | [] =>
    simp [parseField] at h
    simp [h.2]
  | c :: s' =>
    by_cases hc : c = '"'
    · simp only [parseField, if_pos hc] at h
      have := parseQuoted_length_le [] s' f rest h
      simp; omega
    · simp only [parseField, if_neg hc] at h
      injection h with h'
      have h2 := congrArg Prod.snd h'
      simp only at h2
      rw [← h2]
      exact parseUnquoted_length_le (c :: s')

/-! ## The serializer round-trips through the parser -/

theorem parseQuoted_escape (f : Field) :
    ∀ acc rest, rest.head? ≠ some '"' →
      parseQuoted acc (escQ f ++ '"' :: rest) = some (acc ++ f, rest) := by
  induction f with
  | nil =>
    intro acc rest hr
    match rest with
    | [] => simp [escQ, parseQuoted]
    | c :: rest' =>
      have hc : ¬c = '"' := by intro h; exact hr (by simp [h])
      rw [show escQ [] ++ '"' :: c :: rest' = '"' :: c :: rest' from by simp [escQ]]
      rw [parseQuoted.eq_def]
      simp [hc]
  | cons c f ih =>
    intro acc rest hr
    by_cases hc : c = '"'
    · subst hc
      rw [show escQ ('"' :: f) ++ '"' :: rest = '"' :: '"' :: (escQ f ++ '"' :: rest)
            from by simp [escQ]]
      rw [parseQuoted.eq_def]
      simp only [reduceIte]
      rw [ih (acc ++ ['"']) rest hr]
      simp
    · rw [show escQ (c :: f) ++ '"' :: rest = c :: (escQ f ++ '"' :: rest)
            from by simp [escQ, hc]]
      rw [parseQuoted.eq_def]
      simp only [if_neg hc]
      rw [ih (acc ++ [c]) rest hr]
      simp

theorem parseUnquoted_plain (f : Field) :
    ∀ rest, needsQuote f = false → tailOk rest = true →
      parseUnquoted (f ++ rest) = (f, rest) := by
  induction f with
  | nil =>
    intro rest _ hr
    match rest with
    | [] => simp [parseUnquoted]
    | c :: rest' =>
      have hc : isFieldEnd c = true := by
        simp [tailOk] at hr
        rcases hr with h | h <;> simp [isFieldEnd, h]
      simp [parseUnquoted, hc]
  | cons c f ih =>
    intro rest hq hr
    simp only [needsQuote, List.any_cons, Bool.or_eq_false_iff,
      decide_eq_false_iff_not] at hq
    obtain ⟨⟨⟨⟨h1, h2⟩, h3⟩, h4⟩, htail⟩ := hq
    have hcf : isFieldEnd c = false := by simp [isFieldEnd, h1, h3, h4]
    rw [List.cons_append, parseUnquoted]
    rw [ih rest (by simpa [needsQuote] using htail) hr]
    simp [hcf]

theorem parseField_encode (f rest : Field) (hr : tailOk rest = true) :
    parseField (encodeField f ++ rest) = some (f, rest) := by
  have hrq : rest.head? ≠ some '"' := by
    match rest with
    | [] => simp
    | c :: rest' =>
      simp only [tailOk, Bool.or_eq_true, decide_eq_true_eq] at hr
      rcases hr with h | h <;> simp [h]
  by_cases hq : needsQuote f = true
  · rw [encodeField, if_pos hq]
    rw [show ('"' :: (escQ f ++ ['"'])) ++ rest = '"' :: (escQ f ++ '"' :: rest)
          from by simp]
    simp only [parseField, reduceIte]
    rw [parseQuoted_escape f [] rest hrq]
    simp
  · rw [encodeField, if_neg hq]
    match f with
    | [] =>
      rw [List.nil_append]
      match rest with
      | [] => simp [parseField]
      | c :: rest' =>
        have hc : ¬c = '"' := by intro h; exact hrq (by simp [h])
        have hce : isFieldEnd c = true := by
          simp only [tailOk, Bool.or_eq_true, decide_eq_true_eq] at hr
          rcases hr with h | h <;> simp [isFieldEnd, h]
        simp only [parseField, if_neg hc]
        rw [parseUnquoted]
        simp [hce]
    | c :: f' =>
      have hc : ¬c = '"' := by
        intro h
        exact hq (by simp [needsQuote, h])
      rw [List.cons_append]
      simp only [parseField, if_neg hc]
      rw [← List.cons_append]
      rw [parseUnquoted_plain (c :: f') rest (by simpa using hq) hr]

theorem parseRowF_encode (r : Row) :
    ∀ fuel rest, r ≠ [] → r.length ≤ fuel →
      parseRowF fuel (encodeCells r ++ '\r' :: '\n' :: rest) = some (r, rest) := by
  induction r with
  | nil => intro _ _ h; exact absurd rfl h
  | cons f r ih =>
    intro fuel rest _ hlen
    match fuel with
    | 0 => simp at hlen
    | fuel + 1 =>
      match r with
      | [] =>
        rw [show encodeCells [f] = encodeField f from rfl]
        simp only [parseRowF]
        rw [parseField_encode f ('\r' :: '\n' :: rest) (by simp [tailOk])]
        simp
      | g :: r' =>
        rw [show encodeCells (f :: g :: r') = encodeField f ++ ',' :: encodeCells (g :: r')
              from rfl]
        rw [List.append_assoc, List.cons_append]
        simp only [parseRowF]
        rw [parseField_encode f (',' :: (encodeCells (g :: r') ++ '\r' :: '\n' :: rest))
              (by simp [tailOk])]
        simp only [reduceIte]
        rw [ih fuel rest (by simp) (by simpa using hlen)]

theorem encodeCells_length (r : Row) : r.length ≤ (encodeCells r).length + 1 := by
  induction r with
  | nil => simp [encodeCells]
  | cons f r ih =>
    match r with
    | [] => simp [encodeCells]
    | g :: r' =>
      rw [show encodeCells (f :: g :: r') = encodeField f ++ ',' :: encodeCells (g :: r')
            from rfl]
      simp only [List.length_cons, List.length_append] at ih ⊢
      omega

theorem parseRow_encode (r : Row) (rest : Field) (h : r ≠ []) :
    parseRow (encodeCells r ++ '\r' :: '\n' :: rest) = some (r, rest) := by
  rw [parseRow]
  apply parseRowF_encode r _ rest h
  have := encodeCells_length r
  simp only [List.length_append, List.length_cons]
  omega

theorem encodeCells_head (r : Row) (h : r ≠ []) (h1 : r ≠ [[]]) :
    ∃ c s', encodeCells r = c :: s' ∧ ¬c = '\r' := by
  match r with
  | [] => exact absurd rfl h
  | f :: r' =>
    by_cases hq : needsQuote f = true
    · have hf : encodeField f = '"' :: (escQ f ++ ['"']) := by rw [encodeField, if_pos hq]
      match r' with
      | [] => exact ⟨'"', escQ f ++ ['"'], by rw [show encodeCells [f] = encodeField f from rfl, hf], by decide⟩
      | g :: r'' =>
        refine ⟨'"', (escQ f ++ ['"']) ++ ',' :: encodeCells (g :: r''), ?_, by decide⟩
        rw [show encodeCells (f :: g :: r'') = encodeField f ++ ',' :: encodeCells (g :: r'')
              from rfl, hf]
        simp
    · have hf : encodeField f = f := by rw [encodeField, if_neg hq]
      match f with
      | [] =>
        match r' with
        | [] => exact absurd rfl h1
        | g :: r'' =>
          exact ⟨',', encodeCells (g :: r''),
            by rw [show encodeCells ([] :: g :: r'') = encodeField [] ++ ',' :: encodeCells (g :: r'')
                  from rfl]; simp [encodeField, needsQuote], by decide⟩
      | c :: f'' =>
        have hcr : ¬c = '\r' := by
          intro hcc
          exact hq (by simp [needsQuote, hcc])
        match r' with
        | [] =>
          exact ⟨c, f'', by rw [show encodeCells [c :: f''] = encodeField (c :: f'') from rfl, hf], hcr⟩
        | g :: r'' =>
          refine ⟨c, f'' ++ ',' :: encodeCells (g :: r''), ?_, hcr⟩
          rw [show encodeCells ((c :: f'') :: g :: r'')
                = encodeField (c :: f'') ++ ',' :: encodeCells (g :: r'') from rfl, hf]
          simp

theorem writerows_cons (r : Row) (t : Table) :
    writerows (r :: t) = encodeRow r ++ '\r' :: '\n' :: writerows t := by
  simp [writerows]

theorem writerows_length (t : Table) : t.length ≤ (writerows t).length := by
  induction t with
  | nil => simp [writerows]
  | cons r t ih =>
    rw [writerows_cons]
    simp only [List.length_append, List.length_cons]
    omega

theorem parseRowsF_writerows (t : Table) :
    ∀ fuel, t.length < fuel → parseRowsF fuel (writerows t) = some t := by
  induction t with
  | nil =>
    intro fuel h
    match fuel with
    | fuel + 1 => simp [writerows, parseRowsF]
  | cons r t ih =>
    intro fuel hlen
    match fuel with
    | fuel + 1 =>
      rw [writerows_cons]
      by_cases hnil : r = []
      · subst hnil
        rw [show encodeRow [] = [] from rfl, List.nil_append]
        simp only [parseRowsF, reduceIte]
        rw [ih fuel (by simpa using hlen)]
        rfl
      · by_cases hone : r = [[]]
        · subst hone
          have h1 : parseQuoted [] ('"' :: '\r' :: '\n' :: writerows t)
              = some ([], '\r' :: '\n' :: writerows t) := by
            have := parseQuoted_escape [] [] ('\r' :: '\n' :: writerows t) (by simp)
            simpa [escQ] using this
          have hrow : parseRow ('"' :: '"' :: '\r' :: '\n' :: writerows t)
              = some ([[]], writerows t) := by
            rw [parseRow, parseRowF.eq_def]
            simp only [List.length_cons]
            simp only [parseField, reduceIte, h1]
            rw [if_neg (show ¬('\r' = ',') from by decide)]
          rw [show encodeRow [[]] = ['"', '"'] from rfl]
          rw [List.cons_append, List.cons_append, List.nil_append]
          simp only [parseRowsF, hrow]
          rw [if_neg (show ¬('"' = '\r') from by decide)]
          rw [ih fuel (by simpa using hlen)]
          rfl
        · have henc : encodeRow r = encodeCells r := by
            rw [encodeRow.eq_def]
            split
            · exact absurd rfl hone
            · rfl
          obtain ⟨c, s', hEq, hc⟩ := encodeCells_head r hnil hone
          rw [henc, hEq, List.cons_append]
          simp only [parseRowsF, if_neg hc]
          rw [← List.cons_append, ← hEq, parseRow_encode r (writerows t) hnil]
          simp [ih fuel (by simpa using hlen)]

/-- `csv.reader` applied to the output of `csv.writer` recovers the table. -/
theorem parseCSV_writerows (t : Table) : parseCSV (writerows t) = some t := by
  rw [parseCSV]
  exact parseRowsF_writerows t _ (by have := writerows_length t; omega)

/-! ## Stripping facts -/

theorem pyStrip_def (s : Msg) :
    pyStrip s = (s.dropWhile pySpace).rdropWhile pySpace := rfl

theorem pyStrip_dropWhile (s : Msg) :
    (pyStrip s).dropWhile pySpace = pyStrip s := by
  rcases h : pyStrip s with _ | ⟨c, u⟩
  · simp
  · have hpre : (c :: u) <+: s.dropWhile pySpace := by
      rw [← h, pyStrip_def]
      exact List.rdropWhile_prefix pySpace (s.dropWhile pySpace)
    obtain ⟨r, hr⟩ := hpre
    have hidem := List.dropWhile_idempotent pySpace s
    rw [← hr, List.cons_append, List.dropWhile_cons] at hidem
    by_cases hc : pySpace c = true
    · rw [if_pos hc] at hidem
      have h1 : (List.dropWhile pySpace (u ++ r)).length ≤ (u ++ r).length :=
        List.IsSuffix.length_le (List.dropWhile_suffix pySpace)
      have h2 := congrArg List.length hidem
      simp only [List.length_cons] at h2
      omega
    · simp only [Bool.not_eq_true] at hc
      simp [List.dropWhile_cons, hc]

theorem pyStrip_idem (s : Msg) : pyStrip (pyStrip s) = pyStrip s := by
  rw [pyStrip_def (pyStrip s), pyStrip_dropWhile s, pyStrip_def s,
    List.rdropWhile_idempotent]

theorem pyStrip_eq_nil_of_all (s : Msg) (h : ∀ c ∈ s, pySpace c = true) :
    pyStrip s = [] := by
  have h1 : s.dropWhile pySpace = [] := List.dropWhile_eq_nil_iff.mpr h
  rw [pyStrip_def, h1]
  rfl

/-! ## Loop facts shared by several claims -/

theorem loopStep_exit_of_keyword (send : Msg → SendOutcome) (st : ChatState)
    (s : Msg) (h : pyLower (pyStrip s) ∈ exitWords) :
    loopStep send st (.line s) = ⟨.offline, [farewell], none⟩ := by
  have hne : ¬(pyStrip s = []) := by
    intro h0
    rw [h0] at h
    simp [pyLower, exitWords] at h
  simp only [loopStep]
  rw [if_neg hne, if_pos h]

theorem loopStep_blank (send : Msg → SendOutcome) (st : ChatState) (s : Msg)
    (h : pyStrip s = []) :
    loopStep send st (.line s) = ⟨.awaitingInput st, [], none⟩ := by
  simp only [loopStep]
  rw [if_pos h]

/-! ## The claims -/

/-- C1: serializing any non-empty table of text cells with the roster
fetcher's CSV serialization and parsing the text back reconstructs
exactly the original rows; a field containing the delimiter or the quote
char is quoted, and an embedded quote is doubled. -/
theorem claim_C1_csv_roundtrip (t : Table) (h : t ≠ []) :
    parseCSV (writerows t) = some t
    ∧ (∀ f : Field, (',' ∈ f ∨ '"' ∈ f) → encodeField f = '"' :: (escQ f ++ ['"']))
    ∧ (∀ f : Field, escQ ('"' :: f) = '"' :: '"' :: escQ f) := by
  refine ⟨parseCSV_writerows t, ?_, ?_⟩
  · intro f hf
    have hq : needsQuote f = true := by
      rw [needsQuote]
      rcases hf with hf | hf
      · exact List.any_eq_true.mpr ⟨',', hf, by decide⟩
      · exact List.any_eq_true.mpr ⟨'"', hf, by decide⟩
    rw [encodeField, if_pos hq]
  · intro f
    simp [escQ]

/-- Witness for C1: a concrete table mixing plain cells with cells
holding delimiters and quotes. -/
theorem claim_C1_csv_roundtrip_witness :
    parseCSV (writerows [[['a'], ['b', ',', 'c']], [['x', '"', 'y']]])
      = some [[['a'], ['b', ',', 'c']], [['x', '"', 'y']]] :=
  (claim_C1_csv_roundtrip [[['a'], ['b', ',', 'c']], [['x', '"', 'y']]] (by decide)).1

/-- C2: a line whose stripped, lowercased text is one of the exit
keywords moves the loop to the terminal OFFLINE phase, prints the
farewell, and sends nothing to the remote endpoint. -/
theorem claim_C2_exit_terminates (send : Msg → SendOutcome) (st : ChatState)
    (s : Msg) (h : pyLower (pyStrip s) ∈ exitWords) :
    loopStep send st (.line s) = ⟨.offline, [farewell], none⟩ :=
  loopStep_exit_of_keyword send st s h

/-- Witness for C2 at the concrete input line `"  Exit"`. -/
theorem claim_C2_exit_terminates_witness :
    loopStep (fun _ => .ok []) ⟨[]⟩ (.line "  Exit".toList)
      = ⟨.offline, [farewell], none⟩ :=
  claim_C2_exit_terminates (fun _ => .ok []) ⟨[]⟩ "  Exit".toList (by decide)

/-- C3: when the send raises an ordinary exception, the loop catches it,
prints the error report, sends exactly the stripped line, and returns to
AWAITING_INPUT with the same state: per-turn failures are non-fatal. -/
theorem claim_C3_send_error_nonfatal (send : Msg → SendOutcome) (st : ChatState)
    (s e : Msg) (h1 : pyStrip s ≠ []) (h2 : pyLower (pyStrip s) ∉ exitWords)
    (h3 : send (pyStrip s) = .exn e) :
    loopStep send st (.line s)
      = ⟨.awaitingInput st, [errorLine e], some (pyStrip s)⟩ := by
  simp only [loopStep]
  rw [if_neg h1, if_neg h2, h3]

/-- Witness for C3: a send that always raises, on the line `"hello"`. -/
theorem claim_C3_send_error_nonfatal_witness :
    loopStep (fun _ => .exn "boom".toList) ⟨[]⟩ (.line "hello".toList)
      = ⟨.awaitingInput ⟨[]⟩, [errorLine "boom".toList],
          some (pyStrip "hello".toList)⟩ :=
  claim_C3_send_error_nonfatal (fun _ => .exn "boom".toList) ⟨[]⟩
    "hello".toList "boom".toList (by decide) (by decide) rfl

/-- C4: an empty API result set makes the fetch step return the literal
placeholder string rather than fail, and the CSV serialization of the
(empty) row list is not what is returned. -/
theorem claim_C4_empty_placeholder (api : Option Table) (h : api.getD [] = []) :
    fetch_roster_context api = noDataMsg
    ∧ fetch_roster_context api ≠ writerows (api.getD []) := by
  have h1 : fetch_roster_context api = noDataMsg := by
    simp [fetch_roster_context, h]
  refine ⟨h1, ?_⟩
  rw [h1, h]
  decide

/-- Witness for C4: the API returns no values key at all. -/
theorem claim_C4_empty_placeholder_witness :
    fetch_roster_context none = noDataMsg
    ∧ fetch_roster_context none ≠ writerows ((none : Option Table).getD []) :=
  claim_C4_empty_placeholder none rfl

/-- C5: the prompt builder is pure, total and deterministic: equal CSV
inputs give byte-identical prompts, and the output is exactly the fixed
template around the CSV text. -/
theorem claim_C5_prompt_pure (s₁ s₂ : Msg) (h : s₁ = s₂) :
    build_system_prompt s₁ = build_system_prompt s₂
    ∧ build_system_prompt s₁ = promptHead ++ s₁ ++ promptTail :=
  ⟨by rw [h], rfl⟩

/-- Witness for C5 at the empty CSV text. -/
theorem claim_C5_prompt_pure_witness :
    build_system_prompt [] = build_system_prompt []
    ∧ build_system_prompt [] = promptHead ++ [] ++ promptTail :=
  claim_C5_prompt_pure [] [] rfl

/-- C6: an interrupt, whether observed while blocked on input or raised
during the send, moves the loop to the terminal OFFLINE phase printing
only the farewell, never an error trace. -/
theorem claim_C6_interrupt_graceful (send : Msg → SendOutcome) (st : ChatState) :
    loopStep send st .interrupt = ⟨.offline, [farewell], none⟩
    ∧ (∀ s, pyStrip s ≠ [] → pyLower (pyStrip s) ∉ exitWords →
        send (pyStrip s) = .interrupted →
        loopStep send st (.line s) = ⟨.offline, [farewell], some (pyStrip s)⟩) := by
  refine ⟨rfl, ?_⟩
  intro s h1 h2 h3
  simp only [loopStep]
  rw [if_neg h1, if_neg h2, h3]

/-- Witness for C6: an interrupt at the prompt and one during a send. -/
theorem claim_C6_interrupt_graceful_witness :
    loopStep (fun _ => .interrupted) ⟨[]⟩ .interrupt
      = ⟨.offline, [farewell], none⟩
    ∧ loopStep (fun _ => .interrupted) ⟨[]⟩ (.line "hi".toList)
      = ⟨.offline, [farewell], some (pyStrip "hi".toList)⟩ :=
  ⟨(claim_C6_interrupt_graceful (fun _ => .interrupted) ⟨[]⟩).1,
   (claim_C6_interrupt_graceful (fun _ => .interrupted) ⟨[]⟩).2
     "hi".toList (by decide) (by decide) rfl⟩

/-- C7: an error raised while acquiring the service or executing the API
call propagates out of the roster fetcher unchanged, so the underlying
message reaches the caller intact. -/
theorem claim_C7_fetch_error_propagates
    (api : Except PyError (Option Table)) (e : PyError) :
    fetch_roster_contextE (.error e) api = .error e
    ∧ fetch_roster_contextE (.ok ()) (.error e) = .error e :=
  ⟨rfl, rfl⟩

/-- C8: with no client-secret descriptor and no usable cached credential
the loader fails with the missing-file error, and `main` reports that
failure with the diagnostic lines and returns early with exit code 0. -/
theorem claim_C8_missing_secrets (env : FsEnv)
    (h1 : env.clientSecretsPresent = false) (h2 : usableCache env = false) :
    get_sheets_service env = .error .fileNotFound
    ∧ main_init (.error .fileNotFound) = .earlyReturn credsDiag 0 := by
  refine ⟨?_, rfl⟩
  rcases env with ⟨tok, sec⟩
  simp only at h1
  subst h1
  rcases tok with _ | c
  · rfl
  · simp only [usableCache, Bool.or_eq_false_iff] at h2
    simp [get_sheets_service, h2.1, h2.2]

/-- Witness for C8: no token cache and no client-secret descriptor. -/
theorem claim_C8_missing_secrets_witness :
    get_sheets_service ⟨none, false⟩ = .error .fileNotFound
    ∧ main_init (.error .fileNotFound) = .earlyReturn credsDiag 0 :=
  claim_C8_missing_secrets ⟨none, false⟩ rfl rfl

/-- C9: a line that strips to nothing re-loops to AWAITING_INPUT with the
history unchanged, printing nothing and sending nothing. -/
theorem claim_C9_blank_reloop (send : Msg → SendOutcome) (st : ChatState)
    (s : Msg) (h : pyStrip s = []) :
    loopStep send st (.line s) = ⟨.awaitingInput st, [], none⟩ :=
  loopStep_blank send st s h

/-- Witness for C9 at the empty line. -/
theorem claim_C9_blank_reloop_witness :
    loopStep (fun _ => .ok []) ⟨[]⟩ (.line [])
      = ⟨.awaitingInput ⟨[]⟩, [], none⟩ :=
  claim_C9_blank_reloop (fun _ => .ok []) ⟨[]⟩ [] rfl

/-- C10: every line is stripped before any check or send: processing a
line equals processing its stripped form, a whitespace-only line acts as
a blank line, an exit keyword survives surrounding whitespace, and any
message actually sent carries no leading or trailing whitespace. -/
theorem claim_C10_strip_first (send : Msg → SendOutcome) (st : ChatState)
    (s : Msg) :
    loopStep send st (.line s) = loopStep send st (.line (pyStrip s))
    ∧ ((∀ c ∈ s, pySpace c = true) →
        loopStep send st (.line s) = ⟨.awaitingInput st, [], none⟩)
    ∧ (pyLower (pyStrip s) ∈ exitWords →
        loopStep send st (.line s) = ⟨.offline, [farewell], none⟩)
    ∧ (∀ m, (loopStep send st (.line s)).sent = some m → pyStrip m = m) := by
  refine ⟨?_, ?_, loopStep_exit_of_keyword send st s, ?_⟩
  · simp only [loopStep, pyStrip_idem]
  · intro h
    exact loopStep_blank send st s (pyStrip_eq_nil_of_all s h)
  · intro m hm
    simp only [loopStep] at hm
    by_cases h1 : pyStrip s = []
    · rw [if_pos h1] at hm
      simp at hm
    · rw [if_neg h1] at hm
      by_cases h2 : pyLower (pyStrip s) ∈ exitWords
      · rw [if_pos h2] at hm
        simp at hm
      · rw [if_neg h2] at hm
        cases h3 : send (pyStrip s) with
        | ok resp =>
          rw [h3] at hm
          simp only [Option.some.injEq] at hm
          rw [← hm]
          exact pyStrip_idem s
        | exn e =>
          rw [h3] at hm
          simp only [Option.some.injEq] at hm
          rw [← hm]
          exact pyStrip_idem s
        | interrupted =>
          rw [h3] at hm
          simp only [Option.some.injEq] at hm
          rw [← hm]
          exact pyStrip_idem s

/-- Witness for C10: a whitespace-only line and a padded exit keyword. -/
theorem claim_C10_strip_first_witness :
    loopStep (fun _ => .ok []) ⟨[]⟩ (.line "   ".toList)
      = ⟨.awaitingInput ⟨[]⟩, [], none⟩
    ∧ loopStep (fun _ => .ok []) ⟨[]⟩ (.line "  EXIT  ".toList)
      = ⟨.offline, [farewell], none⟩ :=
  ⟨(claim_C10_strip_first (fun _ => .ok []) ⟨[]⟩ "   ".toList).2.1 (by decide),
   (claim_C10_strip_first (fun _ => .ok []) ⟨[]⟩ "  EXIT  ".toList).2.2.1 (by decide)⟩

end Majel
